import Mathlib

/-!
Verification development for the novaprox proxy checker.

The Rust sources under src/ are embedded shallowly:
- pure functions become Lean functions over `List Char` / `String`;
- the mutable `DnsCache` becomes explicit state passing;
- `litemap::LiteMap` (a map kept sorted by key) becomes a key-sorted
  association list;
- `std::collections::HashSet` membership (which tests with `Eq`, the derived
  structural equality) becomes list membership with decidable equality;
- `serde_json::Value` becomes a small inductive `Json` type;
- external library primitives the claims do not depend on (percent-decoding,
  parsing an embedded JSON headers blob) are passed as explicit parameters so
  every theorem holds for all of their behaviours;
- `IpAddr` is modelled by its IPv4 fragment (dotted-quad text form); the
  claims under study only ever need IPv4 values.
Machine integers (`u16`, `u32`, `usize`) are modelled as `Nat`; none of the
embedded code paths overflow them on the inputs the theorems use.
-/

namespace Novaprox

/-! ## Character and string helpers (models of Rust std string operations) -/

/-- Model of Rust char-predicate splitting, as used through
`str::split_whitespace` and the splitting of the cache file into lines.
Splitting an empty list yields one empty piece, matching `str::split`. -/
def splitListOnP (p : Char → Bool) : List Char → List (List Char)
  | [] => [[]]
  | c :: rest =>
    let r := splitListOnP p rest
    if p c then [] :: r
    else
      match r with
      | [] => [[c]]
      | h :: t => (c :: h) :: t

/-- Model of Rust `str::split_whitespace`: split on whitespace and drop the
empty pieces. -/
def splitWhitespace (l : List Char) : List (List Char) :=
  (splitListOnP (fun c => c.isWhitespace) l).filter (fun s => !s.isEmpty)

/-- Joining with a separator, the model of `Vec::join`. -/
def joinWith (sep : String) : List String → String
  | [] => ""
  | [x] => x
  | x :: xs => x ++ sep ++ joinWith sep xs

/-- Decimal digit value of a character, if it is an ASCII digit. -/
def digitVal (c : Char) : Option Nat :=
  if 48 ≤ c.toNat ∧ c.toNat ≤ 57 then some (c.toNat - 48) else none

def parseNatDigitsAux : List Char → Nat → Option Nat
  | [], acc => some acc
  | c :: rest, acc =>
    match digitVal c with
    | some d => parseNatDigitsAux rest (acc * 10 + d)
    | none => none

/-- Parse a nonempty all-digit string as a natural number. -/
def parseNatDigits : List Char → Option Nat
  | [] => none
  | c :: rest => parseNatDigitsAux (c :: rest) 0

/-- Model of Rust `str::parse::<u32>()` restricted to the plain digit form
(an optional leading plus sign, then decimal digits, value below 2^32). -/
def parseU32 (s : String) : Option Nat :=
  let l := match s.data with
    | '+' :: rest => rest
    | l => l
  match parseNatDigits l with
  | some n => if n < 4294967296 then some n else none
  | none => none

/-- Model of Rust `str::parse::<i32>()` (optional sign, decimal digits,
value within the i32 range); this is the inferred integer type of the
`level` field in the vmess outbound builder. -/
def parseI32 (s : String) : Option Int :=
  let signed : Bool × List Char := match s.data with
    | '-' :: rest => (true, rest)
    | '+' :: rest => (false, rest)
    | l => (false, l)
  match parseNatDigits signed.2 with
  | some n =>
    if signed.1 then
      if (n : Int) ≤ 2147483648 then some (-(n : Int)) else none
    else
      if n < 2147483648 then some (n : Int) else none
  | none => none

/-- Model of Rust `char::is_ascii_hexdigit`. -/
def isAsciiHexDigit (c : Char) : Bool :=
  (48 ≤ c.toNat && c.toNat ≤ 57) ||
  (97 ≤ c.toNat && c.toNat ≤ 102) ||
  (65 ≤ c.toNat && c.toNat ≤ 70)

/-- Model of the ASCII case of Rust `char::to_lowercase`, the only case the
inputs of interest exercise (A-Z map to a-z, everything else is kept). -/
def charToLower (c : Char) : Char :=
  if h : 65 ≤ c.toNat ∧ c.toNat ≤ 90 then
    Char.ofNatAux (c.toNat + 32) (Or.inl (by omega))
  else c

/-- Model of Rust `str::to_lowercase` on its ASCII fragment. -/
def strToLower (s : String) : String :=
  ⟨s.data.map charToLower⟩

/-- Is the character A-Z (the uppercase letters `charToLower` rewrites). -/
def isAsciiUpper (c : Char) : Bool :=
  65 ≤ c.toNat && c.toNat ≤ 90

/-- UTF-8 encoded size of one character, the model of Rust
`char::len_utf8`; `str::len` is the sum over the characters. -/
def utf8Len (c : Char) : Nat :=
  if c.toNat < 128 then 1
  else if c.toNat < 2048 then 2
  else if c.toNat < 65536 then 3
  else 4

/-- Model of Rust `str::len` (byte length of the UTF-8 encoding). -/
def byteLen (l : List Char) : Nat :=
  (l.map utf8Len).sum

/-- Model of Rust `str::trim`: drop whitespace from both ends. -/
def trimChars (l : List Char) : List Char :=
  (l.dropWhile (fun c => c.isWhitespace)).reverse.dropWhile (fun c => c.isWhitespace) |>.reverse

/-! ## IPv4 addresses

Model of `std::net::IpAddr` restricted to its IPv4 fragment: the claims only
exercise IPv4 values. Display is the dotted-quad form, parsing accepts
exactly four octets of at most three digits, each below 256, with no leading
zeros, mirroring the std parser. -/

structure Ipv4 where
  a : Nat
  b : Nat
  c : Nat
  d : Nat
deriving DecidableEq

/-- Model of the std `Display` of an IPv4 address. -/
def Ipv4.toStr (ip : Ipv4) : String :=
  Nat.repr ip.a ++ "." ++ Nat.repr ip.b ++ "." ++ Nat.repr ip.c ++ "." ++ Nat.repr ip.d

/-- Parse one octet: nonempty, all digits, no leading zero, at most 255. -/
def parseOctet (l : List Char) : Option Nat :=
  match l with
  | [] => none
  | c :: rest =>
    match parseNatDigits (c :: rest) with
    | some n => if (c == '0' && !rest.isEmpty) || 255 < n then none else some n
    | none => none

/-- Model of the IPv4 fragment of `IpAddr::from_str`. -/
def parseIp (l : List Char) : Option Ipv4 :=
  match splitListOnP (fun c => c == '.') l with
  | [pa, pb, pc, pd] =>
    match parseOctet pa, parseOctet pb, parseOctet pc, parseOctet pd with
    | some x, some y, some z, some w => some ⟨x, y, z, w⟩
    | _, _, _, _ => none
  | _ => none

/-! ## DNS cache (src/dns_cache.rs)

`DnsCache` holds a map from domain to resolved address and a used flag.
The Rust `HashMap` is embedded as an association list with unique keys;
iteration order of the Rust map is arbitrary, and no theorem below depends
on the order of `cache`.

File system effects are made explicit: `save` returns the content string
that `fs::write` persists, and `load_cache` receives the content of the
cache file (`none` when the file does not exist). -/

structure DnsCache where
  cache : List (String × Ipv4 × Bool)
  cache_file : String
deriving DecidableEq

def DnsCache.new (cache_file : String) : DnsCache :=
  { cache := [], cache_file := cache_file }

/-- Model of `DnsCache::get`: look up the exact key, and as a side effect
mark the entry used when found. -/
def DnsCache.get (c : DnsCache) (domain : String) : DnsCache × Option Ipv4 :=
  match c.cache.find? (fun e => e.1 == domain) with
  | some (_, ip, _) =>
    ({ c with cache := c.cache.map (fun e => if e.1 == domain then (e.1, e.2.1, true) else e) },
     some ip)
  | none => (c, none)

/-- Model of `DnsCache::insert`: insert or overwrite, always marking used;
returns the previously stored address, if any. -/
def DnsCache.insert (c : DnsCache) (domain : String) (ip : Ipv4) : DnsCache × Option Ipv4 :=
  match c.cache.find? (fun e => e.1 == domain) with
  | some (_, old, _) =>
    ({ c with cache := c.cache.map (fun e => if e.1 == domain then (domain, ip, true) else e) },
     some old)
  | none => ({ c with cache := c.cache ++ [(domain, ip, true)] }, none)

/-- Model of `DnsCache::save`: serialize only the used entries, one
`domain<space>address` line per entry, joined with newlines. The returned
string is the full new content of the cache file. -/
def DnsCache.save (c : DnsCache) : String :=
  joinWith "\n" ((c.cache.filter (fun e => e.2.2)).map (fun e => e.1 ++ " " ++ e.2.1.toStr))

/-- One line of the cache file: first whitespace-separated field is the
domain, the second must parse as an address, anything further is ignored;
lines that do not fit are skipped. -/
def parseCacheLine (line : List Char) : Option (String × Ipv4 × Bool) :=
  match splitWhitespace line with
  | domain :: ipStr :: _ => (parseIp ipStr).map (fun ip => (String.mk domain, ip, false))
  | _ => none

/-- Insert into the association-list embedding of `HashMap` (overwrite in
place when the key exists, append otherwise). -/
def mapInsert (m : List (String × Ipv4 × Bool)) (e : String × Ipv4 × Bool) :
    List (String × Ipv4 × Bool) :=
  if m.any (fun x => x.1 == e.1) then m.map (fun x => if x.1 == e.1 then e else x)
  else m ++ [e]

/-- Parse the whole cache file content into the map `load_cache` builds:
every loaded entry carries used = false. -/
def parseCacheContent (content : String) : List (String × Ipv4 × Bool) :=
  ((splitListOnP (fun c => c == '\n') content.data).filterMap parseCacheLine).foldl mapInsert []

/-- Model of `DnsCache::load_cache`. The Rust function reads the file (the
`file` argument is its content, `none` when the file is missing), parses it
into a fresh `HashMap` and returns that map; it never writes the parsed
entries into `self.cache`, so the cache state is returned unchanged. -/
def DnsCache.load_cache (c : DnsCache) (file : Option String) :
    DnsCache × List (String × Ipv4 × Bool) :=
  match file with
  | none => (c, [])
  | some content => (c, parseCacheContent content)

/-! ## LiteMap (the query-parameter map of src/proxy_config.rs)

`litemap::LiteMap` keeps its entries sorted by key; lookup is by key,
insertion replaces the value when the key is present and otherwise places
the new pair at its sorted position. `FromIterator` for `LiteMap` inserts
the pairs left to right (with a fast path appending keys that arrive in
ascending order, which coincides with plain insertion). -/

/-- Lexicographic comparison of character lists by code point, the model
of the Rust `Ord` instance for `String` (byte order and code-point order
coincide for UTF-8). -/
def charListLt : List Char → List Char → Bool
  | [], [] => false
  | [], _ :: _ => true
  | _ :: _, [] => false
  | a :: as, b :: bs =>
    if a.toNat < b.toNat then true
    else if b.toNat < a.toNat then false
    else charListLt as bs

/-- Strict order on strings used by the LiteMap embedding. -/
def strLtB (a b : String) : Bool :=
  charListLt a.data b.data

def lmGet (m : List (String × String)) (k : String) : Option String :=
  (m.find? (fun e => e.1 == k)).map (fun e => e.2)

def lmInsert (m : List (String × String)) (k : String) (v : String) :
    List (String × String) :=
  match m with
  | [] => [(k, v)]
  | (k0, v0) :: rest =>
    if strLtB k k0 then (k, v) :: (k0, v0) :: rest
    else if k == k0 then (k, v) :: rest
    else (k0, v0) :: lmInsert rest k v

def lmFromList (pairs : List (String × String)) : List (String × String) :=
  pairs.foldl (fun m e => lmInsert m e.1 e.2) []

/-! ## ProxyConfig (src/proxy_config.rs) -/

def DEFAULT_PORTS : List (String × Nat) :=
  [("http", 80), ("https", 80), ("socks", 1080), ("socks5", 1080),
   ("shadowsocks", 8388), ("trojan", 443), ("vless", 443), ("vmess", 443)]

/-- The canonical proxy entity. `query_params` is the key-sorted
association list embedding of the `LiteMap`; `ping` is the measured
latency in nanoseconds (`Duration` with nanosecond precision).
`DecidableEq` is the embedding of the derived `PartialEq`/`Eq`, which
compares every field. -/
structure ProxyConfig where
  address : Ipv4
  port : Nat
  protocol : String
  query_params : List (String × String)
  username : String
  ping : Nat
deriving DecidableEq

/-- The parsed URI as handed to `ProxyConfig::from_url`: scheme, username,
optional port and the percent-decoded query pairs in document order
(`Url::query_pairs`). -/
structure Url where
  scheme : String
  username : String
  host : Option String
  port : Option Nat
  queryPairs : List (String × String)
deriving DecidableEq

/-- Model of `ProxyConfig::from_url`. -/
def ProxyConfig.from_url (url : Url) (resolved_addr : Ipv4) : ProxyConfig :=
  let query_params := lmFromList url.queryPairs
  let default_port := ((DEFAULT_PORTS.find? (fun e => e.1 == url.scheme)).map (fun e => e.2)).getD 8080
  { address := resolved_addr
    port := url.port.getD default_port
    protocol := strToLower url.scheme
    query_params := query_params
    username := strToLower url.username
    ping := 0 }

/-- Model of the `Display` implementation for `ProxyConfig`: the canonical
connection string. -/
def ProxyConfig.display (p : ProxyConfig) : String :=
  p.protocol ++ "://" ++ p.username ++ "@" ++ p.address.toStr ++ ":" ++ Nat.repr p.port ++
  (if p.query_params.isEmpty then ""
   else "?" ++ joinWith "&" (p.query_params.map (fun e => e.1 ++ "=" ++ e.2)))

/-- The tuple the custom `Hash` implementation feeds to the hasher:
address, port, protocol, the sni, pbk and extra parameters, and the
username. Two entities agree on their identity iff these keys are equal. -/
def identityKey (p : ProxyConfig) :
    Ipv4 × Nat × String × Option String × Option String × Option String × String :=
  (p.address, p.port, p.protocol,
   lmGet p.query_params "sni", lmGet p.query_params "pbk", lmGet p.query_params "extra",
   p.username)

/-- Membership-based insertion into the embedding of
`std::collections::HashSet<ProxyConfig>`: an element is already present
iff an `Eq`-equal (structurally equal) element is, matching the Rust
`HashSet` contract. -/
def hashSetInsert (s : List ProxyConfig) (p : ProxyConfig) : List ProxyConfig :=
  if s.contains p then s else s ++ [p]

/-- Model of `HashSet::from_iter`, as used by `resolve_proxies` to build
the deduplicated resolved set. -/
def hashSetFromList (l : List ProxyConfig) : List ProxyConfig :=
  l.foldl hashSetInsert []

/-! ## Endpoint parser, generic path (src/parse_url.rs) -/

/-- The query rewrite applied to a surviving URI: drop parameters whose key
is in the strip list, drop pairs whose value is exactly none or whose key
is type with value tcp, and truncate every remaining value at its first
equals sign. -/
def rewriteParams (params_remove : List String) (pairs : List (String × String)) :
    List (String × String) :=
  (pairs.filter (fun e => !params_remove.contains e.1)).filterMap (fun e =>
    if e.2 == "none" || (e.1 == "type" && e.2 == "tcp") then none
    else some (e.1, String.mk ((splitListOnP (fun c => c == '=') e.2.data).headD [])))

/-- Model of the generic (non-vmess) path of `parse_proxy_url`. The
`parsed` argument is the result of `Url::parse` on the line after the
amp; cleanup (`none` when URI parsing fails); URI parsing itself belongs
to the url crate and is not re-modelled. The whitelist gate keeps the URI
only when its scheme equals the target scheme and every required pair
occurs among the query pairs with exactly that value; survivors get their
query replaced by the rewritten parameter list. -/
def parse_proxy_url_generic (parsed : Option Url) (target_scheme : String)
    (param_filters : List (String × String)) (params_remove : List String) : Option Url :=
  (parsed.filter (fun url =>
      url.scheme == target_scheme &&
      param_filters.all (fun f => url.queryPairs.any (fun q => q.1 == f.1 && q.2 == f.2)))).map
    (fun url => { url with queryPairs := rewriteParams params_remove url.queryPairs })

/-! ## JSON documents (the serde_json Value fragment the translator uses) -/

inductive Json where
  | str : String → Json
  | int : Int → Json
  | bool : Bool → Json
  | arr : List Json → Json
  | obj : List (String × Json) → Json

/-- Model of serde_json index assignment on an object: replace the value
when the key is present, append the pair otherwise. The translator only
ever indexes into objects. -/
def Json.setKey : Json → String → Json → Json
  | .obj fields, k, v =>
    if fields.any (fun f => f.1 == k) then
      .obj (fields.map (fun f => if f.1 == k then (k, v) else f))
    else .obj (fields ++ [(k, v)])
  | j, _, _ => j

/-- Does an object carry the key. -/
def Json.hasKey : Json → String → Bool
  | .obj fields, k => fields.any (fun f => f.1 == k)
  | _, _ => false

/-- External library primitives the translator calls whose internals no
claim depends on: percent-decoding of path parameters and parsing of the
embedded JSON headers blob. Theorems quantify over all behaviours. -/
structure ExtPrims where
  percentDecode : String → String
  jsonFromStr : String → Option Json

/-! ## Protocol translator (src/xray_config.rs) -/

/-- Model of `create_common_server_settings`. -/
def create_common_server_settings (proxy : ProxyConfig) (additional_fields : List String) : Json :=
  let settings := Json.obj [("address", .str proxy.address.toStr), ("port", .int (Int.ofNat proxy.port))]
  let all_fields := [("user", "user"), ("pass", "pass"), ("level", "level"), ("email", "email")]
    ++ additional_fields.map (fun f => (f, f))
  all_fields.foldl (fun s pf =>
    match lmGet proxy.query_params pf.1 with
    | some value =>
      s.setKey pf.2
        (if pf.1 == "level" then Json.int (Int.ofNat ((parseU32 value).getD 0)) else .str value)
    | none => s) settings

def create_http_outbound (proxy : ProxyConfig) (index : Nat) : Json :=
  .obj [("protocol", .str "http"),
        ("settings", create_common_server_settings proxy ["user", "pass"]),
        ("tag", .str ("http-out-" ++ Nat.repr index))]

def create_socks_outbound (proxy : ProxyConfig) (index : Nat) : Json :=
  .obj [("protocol", .str "socks"),
        ("settings", create_common_server_settings proxy ["user", "pass"]),
        ("tag", .str ("socks-out-" ++ Nat.repr index))]

def create_shadowsocks_outbound (proxy : ProxyConfig) (index : Nat) : Json :=
  let settings := create_common_server_settings proxy []
  let settings := match lmGet proxy.query_params "method" with
    | some m => settings.setKey "method" (.str m)
    | none => settings.setKey "method" (.str "aes-256-gcm")
  let settings := settings.setKey "password" (.str proxy.username)
  let settings := match lmGet proxy.query_params "uot" with
    | some uot => settings.setKey "uot" (.bool (uot == "true"))
    | none => settings
  let settings := match (lmGet proxy.query_params "UoTVersion").bind parseU32 with
    | some v => settings.setKey "UoTVersion" (.int (Int.ofNat v))
    | none => settings
  .obj [("protocol", .str "shadowsocks"), ("settings", settings),
        ("tag", .str ("ss-out-" ++ Nat.repr index))]

/-- Model of `normalize_shortid`: trim, left-pad with one zero when the
byte length is odd, keep the first sixteen characters, and replace the
whole result with two zeros when a non-hex character remains. -/
def normalize_shortid (shortid : String) : String :=
  let s := trimChars shortid.data
  let s := if byteLen s % 2 == 1 then '0' :: s else s
  let s := s.take 16
  if s.all isAsciiHexDigit then String.mk s else "00"

def map_reality_field (param : String) : String :=
  if param == "sni" then "serverName"
  else if param == "pbk" then "publicKey"
  else if param == "sid" then "shortId"
  else param

/-- Model of `create_reality_settings`: requires sni, pbk and sid all
present, otherwise no settings at all. -/
def create_reality_settings (query_params : List (String × String)) : Option Json :=
  let required := ["sni", "pbk", "sid"]
  if !(required.all (fun p => (lmGet query_params p).isSome)) then none
  else
    let settings := required.foldl (fun s p =>
      match lmGet query_params p with
      | some value =>
        let clean_value := if p == "sid" then normalize_shortid value
          else String.mk ((splitListOnP (fun c => c == '=') value.data).headD value.data)
        s.setKey (map_reality_field p) (.str clean_value)
      | none => s) (Json.obj [])
    let optional_fields := [("fingerprint", "fp"), ("spiderX", "spx"), ("privateKey", "privateKey")]
    let settings := optional_fields.foldl (fun s fp =>
      match lmGet query_params fp.2 with
      | some value => s.setKey fp.1 (.str value)
      | none => s) settings
    let settings := match (lmGet query_params "xver").bind parseU32 with
      | some xver => settings.setKey "xver" (.int (Int.ofNat xver))
      | none => settings
    some settings

/-- Model of `create_tls_settings`: requires sni, otherwise no settings. -/
def create_tls_settings (query_params : List (String × String)) : Option Json :=
  match lmGet query_params "sni" with
  | none => none
  | some sni =>
    let settings := Json.obj [("serverName", .str sni)]
    let settings := match lmGet query_params "alpn" with
      | some alpn =>
        settings.setKey "alpn"
          (.arr ((splitListOnP (fun c => c == ',') alpn.data).map (fun p => Json.str (String.mk p))))
      | none => settings
    let settings := match lmGet query_params "fp" with
      | some fp => settings.setKey "fingerprint" (.str fp)
      | none => settings
    some settings

/-- Model of `create_xhttp_extra` (the serde Map is an association list;
the keys written here are pairwise distinct). -/
def create_xhttp_extra (prims : ExtPrims) (query_params : List (String × String)) :
    List (String × Json) :=
  let extra : List (String × Json) := []
  let extra := match (lmGet query_params "headers").bind prims.jsonFromStr with
    | some hv => extra ++ [("headers", hv)]
    | none => extra
  let numeric_fields := ["xPaddingBytes", "scMaxEachPostBytes", "scMinPostsIntervalMs",
    "scMaxBufferedPosts"]
  let extra := numeric_fields.foldl (fun e f =>
    match (lmGet query_params f).bind parseU32 with
    | some v => e ++ [(f, Json.int (Int.ofNat v))]
    | none => e) extra
  let bool_fields := ["noGRPCHeader", "noSSEHeader"]
  let extra := bool_fields.foldl (fun e f =>
    match lmGet query_params f with
    | some v => e ++ [(f, Json.bool (v == "true"))]
    | none => e) extra
  match lmGet query_params "scStreamUpServerSecs" with
  | some secs => extra ++ [("scStreamUpServerSecs", Json.str secs)]
  | none => extra

/-- Model of `apply_network_settings`. -/
def apply_network_settings (prims : ExtPrims) (stream_settings : Json)
    (query_params : List (String × String)) (network : String) : Json :=
  if network == "ws" then
    match lmGet query_params "path" with
    | some path =>
      let ws_settings := Json.obj [("path", .str (prims.percentDecode path))]
      let ws_settings := match lmGet query_params "host" with
        | some host => ws_settings.setKey "headers" (Json.obj [("Host", .str host)])
        | none => ws_settings
      stream_settings.setKey "wsSettings" ws_settings
    | none => stream_settings
  else if network == "grpc" then
    match lmGet query_params "serviceName" with
    | some sn => stream_settings.setKey "grpcSettings" (Json.obj [("serviceName", .str sn)])
    | none => stream_settings
  else if network == "xhttp" then
    let xs : List (String × Json) := []
    let xs := match lmGet query_params "path" with
      | some path => xs ++ [("path", Json.str (prims.percentDecode path))]
      | none => xs
    let xs := match lmGet query_params "host" with
      | some host => xs ++ [("host", Json.str host)]
      | none => xs
    let mode := (lmGet query_params "mode").getD "auto"
    let xs := if mode != "auto" then xs ++ [("mode", Json.str mode)] else xs
    let extra := create_xhttp_extra prims query_params
    let xs := if !extra.isEmpty then xs ++ [("extra", Json.obj extra)] else xs
    if !xs.isEmpty then stream_settings.setKey "xhttpSettings" (Json.obj xs) else stream_settings
  else stream_settings

/-- Model of `create_stream_settings`: security defaults to none, network
type to tcp; no block at all when security is none or the network type is
http or h2; reality and tls each discard the whole block when their
required parameters are missing. -/
def create_stream_settings (prims : ExtPrims) (query_params : List (String × String)) :
    Option Json :=
  let security := (lmGet query_params "security").getD "none"
  let network := (lmGet query_params "type").getD "tcp"
  if security == "none" || network == "http" || network == "h2" then none
  else
    let stream_settings := Json.obj [("network", .str network), ("security", .str security)]
    let withSec : Option Json :=
      if security == "reality" then
        match create_reality_settings query_params with
        | some rs => some (stream_settings.setKey "realitySettings" rs)
        | none => none
      else if security == "tls" then
        match create_tls_settings query_params with
        | some ts => some (stream_settings.setKey "tlsSettings" ts)
        | none => none
      else some stream_settings
    match withSec with
    | some ss => some (apply_network_settings prims ss query_params network)
    | none => none

def create_trojan_outbound (prims : ExtPrims) (proxy : ProxyConfig) (index : Nat) : Json :=
  let settings := (create_common_server_settings proxy []).setKey "password" (.str proxy.username)
  let outbound := Json.obj [("protocol", .str "trojan"), ("settings", settings),
    ("tag", .str ("trojan-out-" ++ Nat.repr index))]
  match create_stream_settings prims proxy.query_params with
  | some ss => outbound.setKey "streamSettings" ss
  | none => outbound

def create_vless_outbound (prims : ExtPrims) (proxy : ProxyConfig) (index : Nat) : Json :=
  let settings := (create_common_server_settings proxy []).setKey "id" (.str proxy.username)
  let settings := settings.setKey "encryption" (.str "none")
  let settings := match lmGet proxy.query_params "flow" with
    | some flow => settings.setKey "flow" (.str flow)
    | none => settings
  let outbound := Json.obj [("protocol", .str "vless"), ("settings", settings),
    ("tag", .str ("vless-out-" ++ Nat.repr index))]
  match create_stream_settings prims proxy.query_params with
  | some ss => outbound.setKey "streamSettings" ss
  | none => outbound

def create_vmess_outbound (prims : ExtPrims) (proxy : ProxyConfig) (index : Nat) : Json :=
  let security := (lmGet proxy.query_params "security").getD "auto"
  let level := ((lmGet proxy.query_params "level").bind parseI32).getD 0
  let settings := Json.obj [("vnext", .arr [Json.obj
    [("address", .str proxy.address.toStr), ("port", .int (Int.ofNat proxy.port)),
     ("users", .arr [Json.obj [("id", .str proxy.username), ("security", .str security),
       ("level", .int level)]])]])]
  let outbound := Json.obj [("protocol", .str "vmess"), ("settings", settings),
    ("tag", .str ("vmess-out-" ++ Nat.repr index))]
  match create_stream_settings prims proxy.query_params with
  | some ss => outbound.setKey "streamSettings" ss
  | none => outbound

/-- Model of `create_outbound`: dispatch on the protocol tag, any other
tag is an error that aborts the whole config generation. -/
def create_outbound (prims : ExtPrims) (proxy : ProxyConfig) (index : Nat) :
    Except String (Option Json) :=
  if proxy.protocol == "http" || proxy.protocol == "https" then
    .ok (some (create_http_outbound proxy index))
  else if proxy.protocol == "socks" || proxy.protocol == "socks5" then
    .ok (some (create_socks_outbound proxy index))
  else if proxy.protocol == "ss" || proxy.protocol == "shadowsocks" then
    .ok (some (create_shadowsocks_outbound proxy index))
  else if proxy.protocol == "trojan" then .ok (some (create_trojan_outbound prims proxy index))
  else if proxy.protocol == "vless" then .ok (some (create_vless_outbound prims proxy index))
  else if proxy.protocol == "vmess" then .ok (some (create_vmess_outbound prims proxy index))
  else .error ("Unsupported protocol: " ++ proxy.protocol)

/-- The per-candidate loop of `generate_xray_config`, building the inbound,
outbound and rule lists; an error from `create_outbound` aborts the whole
loop, discarding everything built so far. -/
def generateLoop (prims : ExtPrims) (base_port : Nat) :
    List ProxyConfig → Nat → Except String (List Json × List Json × List Json)
  | [], _ => .ok ([], [], [])
  | proxy :: rest, i =>
    let inbound_tag := "socks-in-" ++ Nat.repr i
    let inbound := Json.obj [("listen", .str "127.0.0.1"),
      ("port", .int (Int.ofNat (base_port + i))), ("protocol", .str "socks"),
      ("settings", Json.obj [("auth", .str "noauth"), ("udp", .bool true)]),
      ("tag", .str inbound_tag)]
    match create_outbound prims proxy i with
    | .error e => .error e
    | .ok ob =>
      let this : List Json × List Json := match ob with
        | some outbound =>
          ([outbound], [Json.obj [("type", .str "field"), ("inboundTag", .arr [.str inbound_tag]),
            ("outboundTag", .str (proxy.protocol ++ "-out-" ++ Nat.repr i))]])
        | none => ([], [])
      match generateLoop prims base_port rest (i + 1) with
      | .error e => .error e
      | .ok (ins, outs, rls) => .ok (inbound :: ins, this.1 ++ outs, this.2 ++ rls)

/-- Model of `generate_xray_config`. The Rust function ends by
pretty-printing the document; serialization to text is not modelled, the
returned value is the configuration document itself. -/
def generate_xray_config (prims : ExtPrims) (proxies : List ProxyConfig) (base_port : Nat) :
    Except String Json :=
  match generateLoop prims base_port proxies 0 with
  | .error e => .error e
  | .ok (inbounds, outbounds, rules) =>
    .ok (Json.obj [("log", Json.obj [("loglevel", .str "error")]),
      ("inbounds", .arr inbounds),
      ("outbounds", .arr (outbounds ++ [Json.obj [("protocol", .str "freedom"),
        ("tag", .str "direct")]])),
      ("routing", Json.obj [("domainStrategy", .str "IPIfNonMatch"), ("rules", .arr rules)])])

/-! ## Latency probing (src/main.rs, ping_proxies and the two-pass stage)

The surge_ping echo is an explicit oracle: for an address and an attempt
index it yields the round-trip time in nanoseconds when the echo
succeeded, and none on failure. -/

/-- The per-proxy body of `ping_proxies`: run the attempt loop, count the
attempts that succeeded under the timeout (milliseconds, compared against
`Duration::as_millis`), sum their times, and keep the proxy with the
average when at least one succeeded. -/
def ping_one (oracle : Nat → Option Nat) (ping_timeout_ms : Nat) (ping_count : Nat)
    (proxy : ProxyConfig) : Option ProxyConfig :=
  let r := (List.range ping_count).foldl (fun (acc : Nat × Nat) i =>
    match oracle i with
    | some ping => if ping / 1000000 < ping_timeout_ms then (acc.1 + ping, acc.2 + 1) else acc
    | none => acc) (0, 0)
  if r.2 > 0 then some { proxy with ping := r.1 / r.2 } else none

/-- Model of `ping_proxies`. `buffer_unordered` collects results in
completion order; the model keeps input order, which no claim below
depends on. The delay and concurrency-cap arguments never influence which
proxies survive. -/
def ping_proxies (oracle : Ipv4 → Nat → Option Nat) (proxies : List ProxyConfig)
    (ping_timeout_ms ping_delay max_concurrent_pings ping_count : Nat) : List ProxyConfig :=
  proxies.filterMap (fun p => ping_one (oracle p.address) ping_timeout_ms ping_count p)

/-- Model of the two-pass probing in `main`: when ping_count is positive,
pass one probes each proxy once and pass two re-probes the survivors
ping_count - 1 times; otherwise the resolved list passes through. -/
def mainPingStage (oracle : Ipv4 → Nat → Option Nat) (resolved : List ProxyConfig)
    (ping_timeout_ms ping_delay max_concurrent_pings ping_count : Nat) : List ProxyConfig :=
  if ping_count > 0 then
    ping_proxies oracle
      (ping_proxies oracle resolved ping_timeout_ms ping_delay max_concurrent_pings 1)
      ping_timeout_ms ping_delay max_concurrent_pings (ping_count - 1)
  else resolved

/-! ## Ranking and the result file (src/main.rs, save_results) -/

/-- The final sort: Rust `sort_by` with the comparison
`a.ping.cmp(b.ping)` is a stable sort by ascending ping; a stable sort by
one key is unique as a function, so it is embedded as insertion sort. -/
def sortByPing (l : List ProxyConfig) : List ProxyConfig :=
  List.insertionSort (fun a b => a.ping ≤ b.ping) l

/-- Model of `save_results`: sort a copy of the verified proxies by
ascending ping and render one line per entry; the returned string is the
content written to the result file. `Duration::as_millis` is the
nanosecond value divided by one million. -/
def save_results (working_proxies : List ProxyConfig) : String :=
  joinWith "\n" ((sortByPing working_proxies).enum.map (fun e =>
    e.2.display ++ "#Novaprox - " ++ Nat.repr (e.1 + 1) ++ " [" ++
    Nat.repr (e.2.ping / 1000000) ++ "ms]"))

/-! ## Helper lemmas -/

lemma map_ne_of_mem {α : Type} {f : α → α} {l : List α} {c : α}
    (hc : c ∈ l) (h : f c ≠ c) : l.map f ≠ l := by
  induction l with
  | nil => cases hc
  | cons a t ih =>
    intro heq
    rw [List.map_cons, List.cons.injEq] at heq
    rcases List.mem_cons.mp hc with rfl | hmem
    · exact h heq.1
    · exact ih hmem heq.2

lemma charToLower_ne_of_upper {c : Char} (h : isAsciiUpper c = true) : charToLower c ≠ c := by
  have hb : 65 ≤ c.toNat ∧ c.toNat ≤ 90 := by
    simpa [isAsciiUpper, Bool.and_eq_true, decide_eq_true_eq] using h
  intro heq
  rw [charToLower, dif_pos hb] at heq
  have := congrArg Char.toNat heq
  simp only [Char.ofNatAux, Char.toNat, UInt32.toNat, BitVec.toNat_ofNatLt] at this
  omega

/-! ## C1: DNS cache round trip -/

/-- C1. The claim asserts the save and reload round trip: after inserting
a pair, saving, and loading the file into a fresh cache, `get` is claimed
to return the inserted address. The code refutes it: `load_cache` parses
the file into a map that it only returns (the caller in `main` discards
it) and never stores into the cache field, so `get` after the reload
returns none even though the parsed map does contain the saved entry with
its used flag reset. -/
theorem dns_cache_load_never_populates :
    ((((DnsCache.new "resolved.txt").insert "example.com" ⟨1, 2, 3, 4⟩).1.save) =
      "example.com 1.2.3.4") ∧
    ((((DnsCache.new "resolved.txt").load_cache
        (some "example.com 1.2.3.4")).2.find? (fun e => e.1 == "example.com")) =
      some ("example.com", ⟨1, 2, 3, 4⟩, false)) ∧
    ((((DnsCache.new "resolved.txt").load_cache
        (some "example.com 1.2.3.4")).1.get "example.com").2 = none) := by
  refine ⟨by decide, by decide, by decide⟩

/-! ## C2: deduplication of resolved entities -/

/-- C2. Two resolved entities agreeing on address, port, protocol, sni,
pbk, extra and credential (the tuple the custom `Hash` implementation
hashes), differing only in the unrelated path parameter, are claimed to
collapse to one entity in the resolved set. The code refutes it: the
`HashSet` tests membership with the derived structural `Eq`, which also
compares the full parameter map, so both entities stay in the set. -/
theorem resolved_set_keeps_identity_equal_pair :
    (identityKey ⟨⟨1, 2, 3, 4⟩, 443, "vless", lmFromList [("sni", "a"), ("pbk", "k")], "u", 0⟩ =
      identityKey ⟨⟨1, 2, 3, 4⟩, 443, "vless",
        lmFromList [("sni", "a"), ("pbk", "k"), ("path", "/x")], "u", 0⟩) ∧
    ((hashSetFromList
      [⟨⟨1, 2, 3, 4⟩, 443, "vless", lmFromList [("sni", "a"), ("pbk", "k")], "u", 0⟩,
       ⟨⟨1, 2, 3, 4⟩, 443, "vless",
        lmFromList [("sni", "a"), ("pbk", "k"), ("path", "/x")], "u", 0⟩]).length = 2) := by
  refine ⟨by decide, by decide⟩

/-! ## C5: short-id normalization -/

/-- C5 counterexample. The claim says any input containing a non-hex
character maps to two zeros; the code only replaces the result when a
non-hex character survives the trim and the truncation to sixteen
characters. An input of sixteen hex digits followed by four z characters
keeps its first sixteen characters. -/
theorem normalize_shortid_nonhex_input_not_replaced :
    (∃ c ∈ ("0123456789abcdefzzzz" : String).data, isAsciiHexDigit c = false) ∧
    normalize_shortid "0123456789abcdefzzzz" = "0123456789abcdef" ∧
    normalize_shortid "0123456789abcdefzzzz" ≠ "00" := by
  refine ⟨⟨'z', by decide, by decide⟩, by decide, by decide⟩

/-- The trim, pad-to-even, truncate-to-sixteen pipeline from the spec,
stated on its own so the normalization theorem can scope the wholesale
replacement to this result rather than to the raw input. -/
def shortidTrunc (s : String) : List Char :=
  let t := trimChars s.data
  (if byteLen t % 2 == 1 then '0' :: t else t).take 16

/-- C5 amended. Normalization trims, left-pads one zero on odd byte
length, truncates to at most sixteen characters, and replaces the result
wholesale with two zeros exactly when that truncated result still
contains a non-hex character; abc maps to 0abc and a twenty-character hex
string keeps its first sixteen characters. -/
theorem normalize_shortid_amended (s : String) :
    (normalize_shortid "abc" = "0abc") ∧
    (normalize_shortid "0123456789abcdef0123" = "0123456789abcdef") ∧
    (shortidTrunc s).length ≤ 16 ∧
    ((shortidTrunc s).all isAsciiHexDigit = false → normalize_shortid s = "00") ∧
    ((shortidTrunc s).all isAsciiHexDigit = true →
      normalize_shortid s = String.mk (shortidTrunc s)) := by
  have e : normalize_shortid s =
      (if (shortidTrunc s).all isAsciiHexDigit then String.mk (shortidTrunc s) else "00") := rfl
  refine ⟨by decide, by decide, ?_, ?_, ?_⟩
  · simp [shortidTrunc]
  · intro h
    rw [e, h]
    simp
  · intro h
    rw [e, h]
    simp

/-- Witness for the amended normalization theorem at the input zz, whose
truncated result is non-hex only because z is non-hex. -/
theorem normalize_shortid_amended_witness :
    (shortidTrunc "zz").all isAsciiHexDigit = false ∧ normalize_shortid "zz" = "00" :=
  ⟨by decide, (normalize_shortid_amended "zz").2.2.2.1 (by decide)⟩

/-! ## C8: the query-parameter mapping -/

/-- C8 counterexample. The claim says iterating the parameter mapping
yields keys in order of first occurrence in the source URL. The map is a
LiteMap kept sorted by key: for the query pairs b=1 then a=2 the entity
iterates a before b, not in arrival order. -/
theorem query_params_not_insertion_ordered :
    ((ProxyConfig.from_url ⟨"vless", "u", some "h", some 443, [("b", "1"), ("a", "2")]⟩
        ⟨1, 2, 3, 4⟩).query_params.map Prod.fst = ["a", "b"]) ∧
    (["a", "b"] ≠ ["b", "a"]) := by
  refine ⟨by decide, by decide⟩

/-! ## C9: probing with repeat count zero -/

/-- C9. With a repeat count of zero the attempt loop never runs, no proxy
accumulates a successful probe, and every proxy is dropped; consequently
a configured ping count of one makes the second pass run with repeat
count zero and drop every survivor of the first pass. Holds for every
echo oracle. -/
theorem ping_proxies_zero_count_empty (oracle : Ipv4 → Nat → Option Nat)
    (proxies : List ProxyConfig) (ping_timeout_ms ping_delay max_concurrent_pings : Nat) :
    ping_proxies oracle proxies ping_timeout_ms ping_delay max_concurrent_pings 0 = [] ∧
    mainPingStage oracle proxies ping_timeout_ms ping_delay max_concurrent_pings 1 = [] := by
  have h0 : ∀ l : List ProxyConfig,
      ping_proxies oracle l ping_timeout_ms ping_delay max_concurrent_pings 0 = [] := by
    intro l
    simp [ping_proxies, ping_one]
  refine ⟨h0 proxies, ?_⟩
  simp [mainPingStage, h0]

/-! ## C10: credential lowercasing -/

/-- C10. Constructing the entity from a URL lowercases the credential and
the protocol tag; whenever the raw username contains an uppercase letter
the stored credential differs from the raw one. -/
theorem from_url_lowercases_credential (url : Url) (ip : Ipv4) :
    ((ProxyConfig.from_url url ip).username = strToLower url.username ∧
     (ProxyConfig.from_url url ip).protocol = strToLower url.scheme) ∧
    ((∃ c ∈ url.username.data, isAsciiUpper c = true) →
      (ProxyConfig.from_url url ip).username ≠ url.username) := by
  refine ⟨⟨rfl, rfl⟩, ?_⟩
  rintro ⟨c, hc, hup⟩ heq
  have hdata : url.username.data.map charToLower = url.username.data := by
    have : (strToLower url.username).data = url.username.data := by
      rw [show (ProxyConfig.from_url url ip).username = strToLower url.username from rfl] at heq
      rw [heq]
    simpa [strToLower] using this
  exact map_ne_of_mem hc (charToLower_ne_of_upper hup) hdata

/-- Witness: a concrete URL with username User is stored lowercased and
differs from the raw credential. -/
theorem from_url_lowercases_credential_witness :
    (∃ c ∈ ("User" : String).data, isAsciiUpper c = true) ∧
    (ProxyConfig.from_url ⟨"vless", "User", some "h", some 443, []⟩
      ⟨1, 2, 3, 4⟩).username ≠ "User" :=
  ⟨⟨'U', by decide, by decide⟩,
   (from_url_lowercases_credential ⟨"vless", "User", some "h", some 443, []⟩
     ⟨1, 2, 3, 4⟩).2 ⟨'U', by decide, by decide⟩⟩

/-! ## C3: fail-fast config generation -/

/-- The protocol tags `create_outbound` accepts. -/
def SUPPORTED_PROTOCOLS : List String :=
  ["http", "https", "socks", "socks5", "ss", "shadowsocks", "trojan", "vless", "vmess"]

/-- Concrete primitives for witnesses: identity percent-decoding and a
JSON parser that never succeeds. -/
def idPrims : ExtPrims :=
  { percentDecode := fun s => s, jsonFromStr := fun _ => none }

lemma create_outbound_unsupported (prims : ExtPrims) (p : ProxyConfig) (i : Nat)
    (h : ¬ p.protocol ∈ SUPPORTED_PROTOCOLS) :
    create_outbound prims p i = .error ("Unsupported protocol: " ++ p.protocol) := by
  simp only [SUPPORTED_PROTOCOLS, List.mem_cons, List.not_mem_nil, or_false, not_or] at h
  obtain ⟨h1, h2, h3, h4, h5, h6, h7, h8, h9⟩ := h
  simp [create_outbound, h1, h2, h3, h4, h5, h6, h7, h8, h9]

lemma generateLoop_unsupported (prims : ExtPrims) (base_port : Nat) :
    ∀ (proxies : List ProxyConfig) (i : Nat),
      (∃ p ∈ proxies, ¬ p.protocol ∈ SUPPORTED_PROTOCOLS) →
      ∃ e, generateLoop prims base_port proxies i = .error e := by
  intro proxies
  induction proxies with
  | nil => rintro i ⟨p, hp, _⟩; cases hp
  | cons q rest ih =>
    rintro i ⟨p, hp, hbad⟩
    rcases List.mem_cons.mp hp with rfl | hmem
    · refine ⟨"Unsupported protocol: " ++ p.protocol, ?_⟩
      rw [generateLoop, create_outbound_unsupported prims p i hbad]
    · cases hco : create_outbound prims q i with
      | error e => exact ⟨e, by rw [generateLoop, hco]⟩
      | ok ob =>
        obtain ⟨e, he⟩ := ih (i + 1) ⟨p, hmem, hbad⟩
        exact ⟨e, by rw [generateLoop, hco, he]⟩

/-- C3. When any candidate in a chunk carries an unsupported protocol
tag, compiling the chunk fails as a whole: the translation returns an
error and no configuration document is produced for any candidate of the
chunk. -/
theorem generate_xray_config_fail_fast (prims : ExtPrims) (proxies : List ProxyConfig)
    (base_port : Nat) (h : ∃ p ∈ proxies, ¬ p.protocol ∈ SUPPORTED_PROTOCOLS) :
    ∃ e, generate_xray_config prims proxies base_port = Except.error e := by
  obtain ⟨e, he⟩ := generateLoop_unsupported prims base_port proxies 0 h
  exact ⟨e, by rw [generate_xray_config, he]⟩

/-- Witness: a chunk of three candidates whose second candidate has the
unsupported tag wireguard makes the whole compilation error out. -/
theorem generate_xray_config_fail_fast_witness :
    (∃ p ∈ [(⟨⟨1, 2, 3, 4⟩, 443, "vless", [], "u", 0⟩ : ProxyConfig),
            ⟨⟨5, 6, 7, 8⟩, 51820, "wireguard", [], "u", 0⟩,
            ⟨⟨9, 9, 9, 9⟩, 443, "trojan", [], "u", 0⟩],
      ¬ p.protocol ∈ SUPPORTED_PROTOCOLS) ∧
    (∃ e, generate_xray_config idPrims
      [⟨⟨1, 2, 3, 4⟩, 443, "vless", [], "u", 0⟩,
       ⟨⟨5, 6, 7, 8⟩, 51820, "wireguard", [], "u", 0⟩,
       ⟨⟨9, 9, 9, 9⟩, 443, "trojan", [], "u", 0⟩] 10808 = Except.error e) :=
  ⟨⟨⟨⟨5, 6, 7, 8⟩, 51820, "wireguard", [], "u", 0⟩, by decide, by decide⟩,
   generate_xray_config_fail_fast idPrims _ 10808
     ⟨⟨⟨5, 6, 7, 8⟩, 51820, "wireguard", [], "u", 0⟩, by decide, by decide⟩⟩

/-! ## C4: reality fallback -/

/-- Observation on the result of `create_outbound`: whether a produced
outbound carries a streamSettings block (none when compilation failed or
produced no outbound). -/
def streamKeyStatus : Except String (Option Json) → Option Bool
  | .ok (some j) => some (j.hasKey "streamSettings")
  | _ => none

lemma create_stream_settings_reality_missing (prims : ExtPrims)
    (qp : List (String × String)) (hsec : lmGet qp "security" = some "reality")
    (hmiss : lmGet qp "sni" = none ∨ lmGet qp "pbk" = none ∨ lmGet qp "sid" = none) :
    create_stream_settings prims qp = none := by
  have hr : create_reality_settings qp = none := by
    rcases hmiss with h | h | h <;> simp [create_reality_settings, h]
  rw [create_stream_settings, hsec]
  simp only [Option.getD_some]
  split
  · rfl
  · simp [hr]

/-- C4. For a trojan, vless or vmess candidate whose security parameter
is reality but which lacks sni, pbk or sid, the compiled outbound
succeeds and carries no streamSettings block at all, rather than an
incomplete reality block. -/
theorem reality_missing_param_drops_stream_settings (prims : ExtPrims)
    (proxy : ProxyConfig) (index : Nat)
    (hproto : proxy.protocol = "trojan" ∨ proxy.protocol = "vless" ∨ proxy.protocol = "vmess")
    (hsec : lmGet proxy.query_params "security" = some "reality")
    (hmiss : lmGet proxy.query_params "sni" = none ∨ lmGet proxy.query_params "pbk" = none ∨
      lmGet proxy.query_params "sid" = none) :
    streamKeyStatus (create_outbound prims proxy index) = some false := by
  have hss := create_stream_settings_reality_missing prims proxy.query_params hsec hmiss
  rcases hproto with hp | hp | hp <;>
    simp [create_outbound, hp, create_trojan_outbound, create_vless_outbound,
      create_vmess_outbound, hss, streamKeyStatus, Json.hasKey]

/-- Witness: a trojan candidate with security reality, sni and sid
present but pbk missing compiles to an outbound without streamSettings. -/
theorem reality_missing_param_drops_stream_settings_witness :
    streamKeyStatus (create_outbound idPrims
      ⟨⟨1, 2, 3, 4⟩, 443, "trojan",
        lmFromList [("security", "reality"), ("sni", "a"), ("sid", "ab")], "pw", 0⟩ 0) =
      some false :=
  reality_missing_param_drops_stream_settings idPrims
    ⟨⟨1, 2, 3, 4⟩, 443, "trojan",
      lmFromList [("security", "reality"), ("sni", "a"), ("sid", "ab")], "pw", 0⟩ 0
    (Or.inl rfl) (by decide) (Or.inr (Or.inl (by decide)))

/-! ## C6: parser whitelist gate -/

/-- C6. On the generic path a candidate is produced iff the parsed URI
exists, its scheme equals the target protocol, and every required
key-value pair occurs among the query pairs with exactly that value; a
failed URI parse yields no candidate. -/
theorem parse_proxy_url_whitelist_gate (url : Url) (target_scheme : String)
    (param_filters : List (String × String)) (params_remove : List String) :
    (parse_proxy_url_generic none target_scheme param_filters params_remove = none) ∧
    ((parse_proxy_url_generic (some url) target_scheme param_filters params_remove).isSome =
        true ↔
      (url.scheme = target_scheme ∧ ∀ f ∈ param_filters, f ∈ url.queryPairs)) := by
  refine ⟨rfl, ?_⟩
  have hgate : (url.scheme == target_scheme &&
      param_filters.all (fun f => url.queryPairs.any (fun q => q.1 == f.1 && q.2 == f.2))) =
        true ↔
      (url.scheme = target_scheme ∧ ∀ f ∈ param_filters, f ∈ url.queryPairs) := by
    simp only [Bool.and_eq_true, beq_iff_eq, List.all_eq_true, List.any_eq_true]
    constructor
    · rintro ⟨hs, hall⟩
      refine ⟨hs, fun f hf => ?_⟩
      obtain ⟨q, hq, hqe⟩ := hall f hf
      have hqf : q = f := Prod.ext hqe.1 hqe.2
      exact hqf ▸ hq
    · rintro ⟨hs, hf⟩
      exact ⟨hs, fun f hfm => ⟨f, hf f hfm, by simp⟩⟩
  rw [← hgate]
  cases hg : (url.scheme == target_scheme &&
      param_filters.all (fun f => url.queryPairs.any (fun q => q.1 == f.1 && q.2 == f.2))) with
  | true => simp [parse_proxy_url_generic, Option.filter, hg]
  | false => simp [parse_proxy_url_generic, Option.filter, hg]

/-! ## C7: ranking and the result file -/

instance : IsTotal ProxyConfig (fun a b => a.ping ≤ b.ping) :=
  ⟨fun a b => Nat.le_total a.ping b.ping⟩

instance : IsTrans ProxyConfig (fun a b => a.ping ≤ b.ping) :=
  ⟨fun _ _ _ h1 h2 => Nat.le_trans h1 h2⟩

lemma filter_orderedInsert_pos (d : Nat) (x : ProxyConfig) (hx : x.ping = d) :
    ∀ l : List ProxyConfig,
      (List.orderedInsert (fun a b => a.ping ≤ b.ping) x l).filter (fun p => p.ping == d) =
        x :: l.filter (fun p => p.ping == d) := by
  intro l
  induction l with
  | nil => simp [List.orderedInsert, List.filter_cons, hx]
  | cons y t ih =>
    simp only [List.orderedInsert]
    split_ifs with h
    · simp [List.filter_cons, hx]
    · have hy : (y.ping == d) = false := by
        simp only [beq_eq_false_iff_ne, ne_eq]
        omega
      rw [List.filter_cons, hy, List.filter_cons, hy]
      simp only [Bool.false_eq_true, if_false]
      exact ih

lemma filter_orderedInsert_neg (d : Nat) (x : ProxyConfig) (hx : (x.ping == d) = false) :
    ∀ l : List ProxyConfig,
      (List.orderedInsert (fun a b => a.ping ≤ b.ping) x l).filter (fun p => p.ping == d) =
        l.filter (fun p => p.ping == d) := by
  intro l
  induction l with
  | nil => simp [List.orderedInsert, List.filter_cons, hx]
  | cons y t ih =>
    simp only [List.orderedInsert]
    split_ifs with h
    · rw [List.filter_cons, hx]
      simp only [Bool.false_eq_true, if_false]
    · rw [List.filter_cons, List.filter_cons, ih]

/-- Stability of the final sort: for every latency value, the proxies
carrying exactly that latency appear in the sorted output in the same
relative order as in the input. -/
lemma sortByPing_filter (l : List ProxyConfig) (d : Nat) :
    (sortByPing l).filter (fun p => p.ping == d) = l.filter (fun p => p.ping == d) := by
  induction l with
  | nil => rfl
  | cons a t ih =>
    simp only [sortByPing, List.insertionSort] at ih ⊢
    by_cases h : a.ping = d
    · rw [filter_orderedInsert_pos d a h, ih, List.filter_cons]
      simp [h]
    · have hx : (a.ping == d) = false := by simpa using h
      rw [filter_orderedInsert_neg d a hx, ih, List.filter_cons, hx]
      simp

/-- C7. The final sequence is sorted ascending by measured latency with a
stable comparison-only sort (ties keep their input order), and the result
file renders one line per entry in that order, in the form
connection-string, label, 1-based rank and the latency in milliseconds. -/
theorem save_results_ranking_spec (l : List ProxyConfig) :
    List.Sorted (fun a b => a.ping ≤ b.ping) (sortByPing l) ∧
    (∀ d : Nat,
      (sortByPing l).filter (fun p => p.ping == d) = l.filter (fun p => p.ping == d)) ∧
    save_results l = joinWith "\n" ((sortByPing l).enum.map (fun e =>
      e.2.display ++ "#Novaprox - " ++ Nat.repr (e.1 + 1) ++ " [" ++
      Nat.repr (e.2.ping / 1000000) ++ "ms]")) :=
  ⟨List.sorted_insertionSort _ l, fun d => sortByPing_filter l d, rfl⟩

/-! ## C8: order and overwrite semantics of the parameter map -/

lemma charListLt_trans (a : List Char) : ∀ (b c : List Char),
    charListLt a b = true → charListLt b c = true → charListLt a c = true := by
  induction a with
  | nil =>
    intro b c h1 h2
    cases b with
    | nil => simp [charListLt] at h1
    | cons bh bt =>
      cases c with
      | nil => simp [charListLt] at h2
      | cons ch ct => simp [charListLt]
  | cons ah atl ih =>
    intro b c h1 h2
    cases b with
    | nil => simp [charListLt] at h1
    | cons bh bt =>
      cases c with
      | nil => simp [charListLt] at h2
      | cons ch ct =>
        simp only [charListLt] at h1 h2 ⊢
        split_ifs at h1 h2 ⊢ <;>
          first
          | rfl
          | omega
          | exact ih bt ct h1 h2

lemma charListLt_connex (a : List Char) : ∀ b : List Char, a ≠ b →
    charListLt a b = true ∨ charListLt b a = true := by
  induction a with
  | nil =>
    intro b hne
    cases b with
    | nil => exact absurd rfl hne
    | cons bh bt => left; rfl
  | cons ah atl ih =>
    intro b hne
    cases b with
    | nil => right; rfl
    | cons bh bt =>
      rcases Nat.lt_trichotomy ah.toNat bh.toNat with h | h | h
      · left; simp [charListLt, h]
      · have hc : ah = bh := Char.eq_of_val_eq (UInt32.toNat.inj h)
        subst hc
        have htl : atl ≠ bt := fun he => hne (by rw [he])
        rcases ih bt htl with h1 | h1
        · left; simp [charListLt, h1]
        · right; simp [charListLt, h1]
      · right; simp [charListLt, h]

lemma strLtB_trans {a b c : String} (h1 : strLtB a b = true) (h2 : strLtB b c = true) :
    strLtB a c = true :=
  charListLt_trans a.data b.data c.data h1 h2

lemma strLtB_connex {a b : String} (h : a ≠ b) : strLtB a b = true ∨ strLtB b a = true := by
  apply charListLt_connex
  intro he
  apply h
  cases a
  cases b
  exact congrArg String.mk he

lemma mem_lmInsert {m : List (String × String)} {k v : String} {e : String × String}
    (he : e ∈ lmInsert m k v) : e = (k, v) ∨ e ∈ m := by
  induction m with
  | nil => simpa [lmInsert] using he
  | cons p rest ih =>
    obtain ⟨k0, v0⟩ := p
    simp only [lmInsert] at he
    split_ifs at he with h1 h2
    · rcases List.mem_cons.mp he with rfl | hm
      · exact Or.inl rfl
      · exact Or.inr hm
    · rcases List.mem_cons.mp he with rfl | hm
      · exact Or.inl rfl
      · exact Or.inr (List.mem_cons_of_mem _ hm)
    · rcases List.mem_cons.mp he with rfl | hm
      · exact Or.inr (List.mem_cons_self _ _)
      · rcases ih hm with h | h
        · exact Or.inl h
        · exact Or.inr (List.mem_cons_of_mem _ h)

lemma lmInsert_sorted {m : List (String × String)} (k v : String)
    (h : m.Pairwise (fun a b => strLtB a.1 b.1 = true)) :
    (lmInsert m k v).Pairwise (fun a b => strLtB a.1 b.1 = true) := by
  induction m with
  | nil => simp [lmInsert]
  | cons p rest ih =>
    obtain ⟨k0, v0⟩ := p
    rw [List.pairwise_cons] at h
    obtain ⟨h0, hrest⟩ := h
    simp only [lmInsert]
    split_ifs with h1 h2
    · rw [List.pairwise_cons]
      refine ⟨?_, List.pairwise_cons.mpr ⟨h0, hrest⟩⟩
      intro e he
      rcases List.mem_cons.mp he with rfl | hm
      · exact h1
      · exact strLtB_trans h1 (h0 e hm)
    · have hk : k = k0 := by simpa using h2
      rw [List.pairwise_cons]
      exact ⟨fun e he => hk ▸ h0 e he, hrest⟩
    · rw [List.pairwise_cons]
      refine ⟨?_, ih hrest⟩
      intro e he
      rcases mem_lmInsert he with rfl | hm
      · have hk : k ≠ k0 := by simpa using h2
        rcases strLtB_connex hk with hlt | hlt
        · exact absurd hlt h1
        · exact hlt
      · exact h0 e hm

lemma lmFromList_sorted_aux (pairs : List (String × String)) :
    ∀ m, m.Pairwise (fun a b => strLtB a.1 b.1 = true) →
      (pairs.foldl (fun acc e => lmInsert acc e.1 e.2) m).Pairwise
        (fun a b => strLtB a.1 b.1 = true) := by
  induction pairs with
  | nil => intro m h; exact h
  | cons p rest ih => intro m h; exact ih _ (lmInsert_sorted p.1 p.2 h)

lemma lmFromList_sorted (pairs : List (String × String)) :
    (lmFromList pairs).Pairwise (fun a b => strLtB a.1 b.1 = true) :=
  lmFromList_sorted_aux pairs [] (by simp)

lemma lmGet_cons (k0 v0 : String) (rest : List (String × String)) (k' : String) :
    lmGet ((k0, v0) :: rest) k' = if k0 = k' then some v0 else lmGet rest k' := by
  by_cases h : k0 = k'
  · rw [lmGet, List.find?_cons_of_pos _ (by simp [h]), if_pos h]
    rfl
  · rw [lmGet, List.find?_cons_of_neg _ (by simp [h]), if_neg h]
    rfl

lemma lmGet_lmInsert (m : List (String × String)) (k v k' : String) :
    lmGet (lmInsert m k v) k' = if k = k' then some v else lmGet m k' := by
  induction m with
  | nil => rw [lmInsert, lmGet_cons]
  | cons p rest ih =>
    obtain ⟨k0, v0⟩ := p
    simp only [lmInsert]
    by_cases h1 : strLtB k k0 = true
    · rw [if_pos h1, lmGet_cons]
    · rw [if_neg h1]
      by_cases h2 : k = k0
      · rw [if_pos (show (k == k0) = true by simp [h2])]
        subst h2
        rw [lmGet_cons]
        by_cases h : k = k'
        · simp only [if_pos h]
        · simp only [lmGet_cons, if_neg h]
      · rw [if_neg (show ¬ (k == k0) = true by simp [h2])]
        rw [lmGet_cons, ih, lmGet_cons]
        by_cases h : k = k'
        · simp only [if_pos h,
            if_neg (show ¬ k0 = k' from fun he => h2 (h.trans he.symm))]
        · simp only [if_neg h]

lemma lmGet_foldl (pairs : List (String × String)) :
    ∀ (m : List (String × String)) (k : String),
      lmGet (pairs.foldl (fun acc e => lmInsert acc e.1 e.2) m) k =
        match pairs.reverse.find? (fun e => e.1 == k) with
        | some e => some e.2
        | none => lmGet m k := by
  induction pairs with
  | nil => intro m k; rfl
  | cons p rest ih =>
    intro m k
    obtain ⟨a, b⟩ := p
    simp only [List.foldl_cons, List.reverse_cons]
    rw [ih, List.find?_append]
    cases hfind : rest.reverse.find? (fun e => e.1 == k) with
    | some e => simp [Option.or]
    | none =>
      simp only [Option.none_or]
      rw [lmGet_lmInsert]
      by_cases h : a = k
      · rw [List.find?_cons_of_pos _ (by simp [h])]
        simp [h]
      · rw [List.find?_cons_of_neg _ (by simp [h])]
        simp [h]

/-- C8 amended. The query-parameter mapping of the entity is the LiteMap
built from the query pairs of the source URL; iterating it yields the
keys in ascending key order (not first-occurrence order), and a lookup
returns the value of the last occurrence of the key in the source URL —
later occurrences overwrite earlier ones. -/
theorem query_params_key_sorted_map (url : Url) (ip : Ipv4)
    (pairs : List (String × String)) (k : String) :
    ((ProxyConfig.from_url url ip).query_params = lmFromList url.queryPairs) ∧
    ((lmFromList pairs).Pairwise (fun a b => strLtB a.1 b.1 = true)) ∧
    (lmGet (lmFromList pairs) k =
      (pairs.reverse.find? (fun e => e.1 == k)).map (fun e => e.2)) := by
  refine ⟨rfl, lmFromList_sorted pairs, ?_⟩
  have h := lmGet_foldl pairs [] k
  rw [lmFromList, h]
  cases pairs.reverse.find? (fun e => e.1 == k) with
  | some e => rfl
  | none => rfl

end Novaprox
